import Mathlib

/-!
Verification of the encryption / audit-chain core of the
Hospital_Medical_Records_System repository.

The development shallowly embeds the three Python modules:

* `crypto_utils.py` — `MedicalCrypto.encrypt_patient_data`,
  `MedicalCrypto.decrypt_patient_data`, `MedicalCrypto.create_log_hash`,
  `MedicalCrypto._derive_key`;
* `app.py` — the audit-log entries written by the mutating routes
  (`add_patient`, `delete_patient`) and the startup check on
  `MEDICAL_MASTER_KEY`;
* `migrate_encryption.py` — `migrate_encrypted_data` (the Reconciler).

Python strings are modelled as `List Char`; byte strings as `List Nat`
(each element a byte value).  The AES-GCM primitive and the base64 codec
are external library calls (`cryptography.hazmat`, `base64`); they are
modelled as an abstract interface `CryptoApi` carrying their documented
round-trip contracts, with a fully concrete executable instance used for
witnesses.  SHA-256 is implemented concretely (FIPS 180-4) because the
audit-hash claims depend on actual digest values.
-/

set_option maxRecDepth 100000

/-- Python strings are modelled as lists of characters. -/
abbrev Str := List Char

/-- Build a `Str` from a Lean string literal. -/
def strOf (s : String) : Str := s.data

/-- Python's `s or ''` on a string: the identity (empty maps to empty). -/
def pyOrEmpty (s : Str) : Str := if s.isEmpty then [] else s

theorem pyOrEmpty_eq (s : Str) : pyOrEmpty s = s := by
  cases s <;> simp [pyOrEmpty]

/-- Python `str.split(sep)` for a one-character separator: splits at every
occurrence, always returns at least one (possibly empty) segment. -/
def splitOnChar (sep : Char) : Str → List Str
  | [] => [[]]
  | c :: cs =>
    if c = sep then [] :: splitOnChar sep cs
    else
      match splitOnChar sep cs with
      | r :: rs => (c :: r) :: rs
      | [] => [[c]]

/-- Python `sep.join(parts)` for a one-character separator. -/
def joinChar (sep : Char) : List Str → Str
  | [] => []
  | [x] => x
  | x :: xs => x ++ sep :: joinChar sep xs

theorem splitOnChar_ne_nil (sep : Char) (s : Str) : splitOnChar sep s ≠ [] := by
  induction s with
  | nil => simp [splitOnChar]
  | cons c cs ih =>
    simp only [splitOnChar]
    split
    · simp
    · cases h : splitOnChar sep cs <;> simp

theorem splitOnChar_sep_cons (sep : Char) (t : Str) :
    splitOnChar sep (sep :: t) = [] :: splitOnChar sep t := by
  simp [splitOnChar]

theorem splitOnChar_append_sep (sep : Char) (x t : Str) (hx : sep ∉ x) :
    splitOnChar sep (x ++ sep :: t) = x :: splitOnChar sep t := by
  induction x with
  | nil => simp [splitOnChar]
  | cons c cs ih =>
    have hc : c ≠ sep := by rintro rfl; exact hx (List.mem_cons_self _ _)
    have hcs : sep ∉ cs := fun h => hx (List.mem_cons_of_mem _ h)
    have ih' := ih hcs
    simp only [List.cons_append, List.append_eq, splitOnChar, if_neg hc, ih']

theorem splitOnChar_of_not_mem (sep : Char) (x : Str) (hx : sep ∉ x) :
    splitOnChar sep x = [x] := by
  induction x with
  | nil => simp [splitOnChar]
  | cons c cs ih =>
    have hc : c ≠ sep := by rintro rfl; exact hx (List.mem_cons_self _ _)
    have hcs : sep ∉ cs := fun h => hx (List.mem_cons_of_mem _ h)
    simp only [splitOnChar, if_neg hc, ih hcs]

/-- Splitting undoes joining when no part contains the separator. -/
theorem splitOnChar_joinChar (sep : Char) (parts : List Str)
    (hne : parts ≠ []) (hfree : ∀ p ∈ parts, sep ∉ p) :
    splitOnChar sep (joinChar sep parts) = parts := by
  induction parts with
  | nil => exact absurd rfl hne
  | cons x xs ih =>
    cases xs with
    | nil =>
      simp only [joinChar]
      exact splitOnChar_of_not_mem sep x (hfree x (List.mem_cons_self _ _))
    | cons y ys =>
      have hx : sep ∉ x := hfree x (List.mem_cons_self _ _)
      have hxs : ∀ p ∈ y :: ys, sep ∉ p := fun p hp => hfree p (List.mem_cons_of_mem _ hp)
      simp only [joinChar]
      rw [splitOnChar_append_sep sep x _ hx, ih (by simp) hxs]

/-- Every segment produced by splitting is free of the separator. -/
theorem splitOnChar_not_mem (sep : Char) (s : Str) :
    ∀ p ∈ splitOnChar sep s, sep ∉ p := by
  induction s with
  | nil =>
    intro p hp
    simp only [splitOnChar, List.mem_singleton] at hp
    subst hp; simp
  | cons c cs ih =>
    intro p hp
    simp only [splitOnChar] at hp
    by_cases hc : c = sep
    · rw [if_pos hc] at hp
      rcases List.mem_cons.mp hp with rfl | hp'
      · simp
      · exact ih p hp'
    · rw [if_neg hc] at hp
      rcases hsplit : splitOnChar sep cs with _ | ⟨r, rs⟩
      · exact absurd hsplit (splitOnChar_ne_nil sep cs)
      · rw [hsplit] at hp
        rcases List.mem_cons.mp hp with rfl | hp'
        · intro hmem
          rcases List.mem_cons.mp hmem with h1 | h1
          · exact hc h1.symm
          · exact ih r (hsplit ▸ List.mem_cons_self r rs) h1
        · exact ih p (hsplit ▸ List.mem_cons_of_mem r hp')

namespace SHA256

/-- 32-bit right rotation. -/
def rotr (n x : Nat) : Nat := ((x >>> n) ||| (x <<< (32 - n))) % 4294967296

/-- The 64 SHA-256 round constants. -/
def K : List Nat :=
  [1116352408, 1899447441, 3049323471, 3921009573, 961987163,
   1508970993, 2453635748, 2870763221, 3624381080, 310598401,
   607225278, 1426881987, 1925078388, 2162078206, 2614888103,
   3248222580, 3835390401, 4022224774, 264347078, 604807628,
   770255983, 1249150122, 1555081692, 1996064986, 2554220882,
   2821834349, 2952996808, 3210313671, 3336571891, 3584528711,
   113926993, 338241895, 666307205, 773529912, 1294757372,
   1396182291, 1695183700, 1986661051, 2177026350, 2456956037,
   2730485921, 2820302411, 3259730800, 3345764771, 3516065817,
   3600352804, 4094571909, 275423344, 430227734, 506948616,
   659060556, 883997877, 958139571, 1322822218, 1537002063,
   1747873779, 1955562222, 2024104815, 2227730452, 2361852424,
   2428436474, 2756734187, 3204031479, 3329325298]

/-- Big-endian byte representation, `n` bytes wide. -/
def toBytesBE : Nat → Nat → List Nat
  | 0, _ => []
  | n + 1, v => toBytesBE n (v >>> 8) ++ [v % 256]

/-- SHA-256 padding: append `0x80`, zeros, then the 64-bit big-endian bit length. -/
def padMessage (msg : List Nat) : List Nat :=
  let l := msg.length
  let zeros := (64 + 56 - (l + 1) % 64) % 64
  msg ++ 0x80 :: List.replicate zeros 0 ++ toBytesBE 8 (8 * l)

/-- Group bytes into big-endian 32-bit words. -/
def toWords : List Nat → List Nat
  | a :: b :: c :: d :: rest => (((a * 256 + b) * 256 + c) * 256 + d) :: toWords rest
  | _ => []

/-- Split a word list into 16-word blocks. -/
def toBlocks (ws : List Nat) : List (List Nat) :=
  (List.range (ws.length / 16)).map (fun i => (ws.drop (16 * i)).take 16)

/-- Extend a 16-word block with `n` further message-schedule words. -/
def extendW : Nat → List Nat → List Nat
  | 0, w => w
  | n + 1, w =>
    let i := w.length
    let x15 := w.getD (i - 15) 0
    let x2 := w.getD (i - 2) 0
    let s0 := (rotr 7 x15) ^^^ (rotr 18 x15) ^^^ (x15 >>> 3)
    let s1 := (rotr 17 x2) ^^^ (rotr 19 x2) ^^^ (x2 >>> 10)
    extendW n (w ++ [(w.getD (i - 16) 0 + s0 + w.getD (i - 7) 0 + s1) % 4294967296])

/-- The eight 32-bit working variables of the compression function. -/
structure Hs where
  a : Nat
  b : Nat
  c : Nat
  d : Nat
  e : Nat
  f : Nat
  g : Nat
  h : Nat

/-- One SHA-256 round. -/
def round (s : Hs) (k w : Nat) : Hs :=
  let s1 := (rotr 6 s.e) ^^^ (rotr 11 s.e) ^^^ (rotr 25 s.e)
  let ch := (s.e &&& s.f) ^^^ ((s.e ^^^ 0xffffffff) &&& s.g)
  let t1 := (s.h + s1 + ch + k + w) % 4294967296
  let s0 := (rotr 2 s.a) ^^^ (rotr 13 s.a) ^^^ (rotr 22 s.a)
  let maj := (s.a &&& s.b) ^^^ (s.a &&& s.c) ^^^ (s.b &&& s.c)
  let t2 := (s0 + maj) % 4294967296
  ⟨(t1 + t2) % 4294967296, s.a, s.b, s.c, (s.d + t1) % 4294967296, s.e, s.f, s.g⟩

/-- Compress one 512-bit block into the running state. -/
def compressBlock (s : Hs) (block : List Nat) : Hs :=
  let w := extendW 48 block
  let f := (K.zip w).foldl (fun t kw => round t kw.1 kw.2) s
  ⟨(s.a + f.a) % 4294967296, (s.b + f.b) % 4294967296, (s.c + f.c) % 4294967296,
   (s.d + f.d) % 4294967296, (s.e + f.e) % 4294967296, (s.f + f.f) % 4294967296,
   (s.g + f.g) % 4294967296, (s.h + f.h) % 4294967296⟩

/-- SHA-256 of a byte list, as a 32-byte list. -/
def sha256 (msg : List Nat) : List Nat :=
  let s := (toBlocks (toWords (padMessage msg))).foldl compressBlock
    ⟨1779033703, 3144134277, 1013904242, 2773480762, 1359893119, 2600822924, 528734635, 1541459225⟩
  toBytesBE 4 s.a ++ toBytesBE 4 s.b ++ toBytesBE 4 s.c ++ toBytesBE 4 s.d ++
  toBytesBE 4 s.e ++ toBytesBE 4 s.f ++ toBytesBE 4 s.g ++ toBytesBE 4 s.h

/-- A lowercase hex digit character. -/
def hexDigit (n : Nat) : Char := if n < 10 then Char.ofNat (48 + n) else Char.ofNat (87 + n)

/-- Lowercase hex rendering of a byte list. -/
def toHex (bytes : List Nat) : Str :=
  (bytes.map (fun b => [hexDigit (b / 16), hexDigit (b % 16)])).flatten

end SHA256

/-- FIPS 180-4 test vector, validating the embedded SHA-256. -/
example : SHA256.toHex (SHA256.sha256 (strOf "abc" |>.map Char.toNat)) =
    strOf "ba7816bf8f01cfea414140de5dae2223b00361a396177a9cb410ff61f20015ad" := by decide

/-- UTF-8 encoding of one character (Python `str.encode()`). -/
def utf8EncodeChar (c : Char) : List Nat :=
  let n := c.toNat
  if n < 0x80 then [n]
  else if n < 0x800 then [0xC0 ||| (n >>> 6), 0x80 ||| (n &&& 0x3F)]
  else if n < 0x10000 then
    [0xE0 ||| (n >>> 12), 0x80 ||| ((n >>> 6) &&& 0x3F), 0x80 ||| (n &&& 0x3F)]
  else
    [0xF0 ||| (n >>> 18), 0x80 ||| ((n >>> 12) &&& 0x3F), 0x80 ||| ((n >>> 6) &&& 0x3F),
     0x80 ||| (n &&& 0x3F)]

/-- UTF-8 encoding of a modelled string (Python `str.encode()`). -/
def strBytes (s : Str) : List Nat := (s.map utf8EncodeChar).flatten

/-- `MedicalCrypto.create_log_hash` (crypto_utils.py, lines 167-172): SHA-256
hex digest of the f-string `f"{prev_hash}{role}{action}{details}{timestamp}"`. -/
def create_log_hash (prev_hash role action details timestamp : Str) : Str :=
  SHA256.toHex (SHA256.sha256 (strBytes (prev_hash ++ role ++ action ++ details ++ timestamp)))

/-- A patient record: the seven string fields handled by
`encrypt_patient_data` / `decrypt_patient_data` (crypto_utils.py). -/
structure PatientData where
  name : Str
  dob : Str
  gender : Str
  address : Str
  phone : Str
  diagnosis : Str
  treatment : Str
deriving DecidableEq, Repr

/-- The all-empty dictionary returned by `decrypt_patient_data` on any
decryption error (crypto_utils.py, lines 141-149). -/
def emptyPatient : PatientData := ⟨[], [], [], [], [], [], []⟩

/-- The serialized plaintext built by `encrypt_patient_data`
(crypto_utils.py, lines 82-90): `"|".join([...])` in the source's order —
name, dob, address, phone, diagnosis, treatment, gender. -/
def dataStr (p : PatientData) : Str :=
  joinChar '|' [p.name, p.dob, p.address, p.phone, p.diagnosis, p.treatment, p.gender]

/-- The serialization order asserted by the specification (§3, §6): name,
date-of-birth, gender, address, phone, diagnosis, treatment — gender third.
Stated from the spec's words, for comparison with `dataStr` above. -/
def dataStrSpecOrder (p : PatientData) : Str :=
  joinChar '|' [p.name, p.dob, p.gender, p.address, p.phone, p.diagnosis, p.treatment]

/-- The field-parsing step of `decrypt_patient_data` (crypto_utils.py,
lines 126-138): split on `'|'`, right-pad to 7 segments, build the dict
with `fields[i] or ''` in the source's assignment order. -/
def parseFields (m : Str) : PatientData :=
  let fields := splitOnChar '|' m
  let fields := if fields.length < 7 then fields ++ List.replicate (7 - fields.length) [] else fields
  { name := pyOrEmpty (fields.getD 0 [])
    dob := pyOrEmpty (fields.getD 1 [])
    address := pyOrEmpty (fields.getD 2 [])
    phone := pyOrEmpty (fields.getD 3 [])
    diagnosis := pyOrEmpty (fields.getD 4 [])
    treatment := pyOrEmpty (fields.getD 5 [])
    gender := pyOrEmpty (fields.getD 6 []) }

/-- The external cryptographic library surface used by `crypto_utils.py`:
AES-256-GCM (`cryptography.hazmat...AESGCM`) and base64 (`base64` module),
together with their documented round-trip contracts.  `aesgcm_decrypt`
returns `none` when the library call raises (authentication-tag mismatch,
truncated input, bad UTF-8); `b64decode` returns `none` when base64
decoding raises. -/
structure CryptoApi where
  aesgcm_encrypt : List Nat → List Nat → Str → List Nat
  aesgcm_decrypt : List Nat → List Nat → List Nat → Option Str
  b64encode : List Nat → Str
  b64decode : Str → Option (List Nat)
  aead_roundtrip : ∀ key iv m, aesgcm_decrypt key iv (aesgcm_encrypt key iv m) = some m
  b64_roundtrip : ∀ bs, b64decode (b64encode bs) = some bs

/-- `MedicalCrypto.encrypt_patient_data` (crypto_utils.py, lines 78-106):
serialize the record, AES-GCM-encrypt under a fresh 12-byte IV, and return
`base64(iv + ciphertext)`.  The IV (`os.urandom(12)`) is passed explicitly. -/
def encrypt_patient_data (L : CryptoApi) (key iv : List Nat) (p : PatientData) : Str :=
  L.b64encode (iv ++ L.aesgcm_encrypt key iv (dataStr p))

/-- `MedicalCrypto.decrypt_patient_data` (crypto_utils.py, lines 108-149):
base64-decode, split off the first 12 bytes as IV, AES-GCM-decrypt, parse
the fields; any failure yields the all-empty dictionary via the
`except` clause. -/
def decrypt_patient_data (L : CryptoApi) (key : List Nat) (blob : Str) : PatientData :=
  match L.b64decode blob with
  | none => emptyPatient
  | some raw =>
    match L.aesgcm_decrypt key (raw.take 12) (raw.drop 12) with
    | none => emptyPatient
    | some dec => parseFields dec

/-- Python `any(decrypted_data.values())`: some field is a non-empty string. -/
def hasNonEmptyField (p : PatientData) : Bool :=
  !p.name.isEmpty || !p.dob.isEmpty || !p.address.isEmpty || !p.phone.isEmpty ||
  !p.diagnosis.isEmpty || !p.treatment.isEmpty || !p.gender.isEmpty

/-- No field of the record contains the `'|'` delimiter. -/
def delimFree (p : PatientData) : Prop :=
  '|' ∉ p.name ∧ '|' ∉ p.dob ∧ '|' ∉ p.gender ∧ '|' ∉ p.address ∧
  '|' ∉ p.phone ∧ '|' ∉ p.diagnosis ∧ '|' ∉ p.treatment

instance (p : PatientData) : Decidable (delimFree p) := by
  unfold delimFree; infer_instance

/-- A row of the `audit_logs` table: {role, action, details, timestamp,
prev_hash, hash} (app.py INSERT statements; spec §3 AuditEntry). -/
structure AuditEntry where
  role : Str
  action : Str
  details : Str
  timestamp : Str
  prev_hash : Str
  hash : Str
deriving DecidableEq, Repr

/-- The 64-character all-zero genesis value `'0' * 64` (app.py, lines 190,
255, 330, 378). -/
def genesisHash : Str := List.replicate 64 '0'

/-- Strict lexicographic order on modelled strings, used to compare
timestamps (SQL `ORDER BY timestamp DESC` on ISO-formatted text). -/
def strLt : Str → Str → Bool
  | [], [] => false
  | [], _ :: _ => true
  | _ :: _, [] => false
  | a :: as, b :: bs => if a = b then strLt as bs else decide (a < b)

/-- The audit entry with the maximum timestamp
(`SELECT hash FROM audit_logs ORDER BY timestamp DESC LIMIT 1`). -/
def tipEntry (logs : List AuditEntry) : Option AuditEntry :=
  logs.foldl
    (fun acc e =>
      match acc with
      | none => some e
      | some b => if strLt b.timestamp e.timestamp then some e else some b)
    none

/-- The `prev_hash` used for the next audit entry: the tip's hash, or the
genesis value when the table is empty (app.py, lines 188-190). -/
def tipHash (logs : List AuditEntry) : Str :=
  match tipEntry logs with
  | some e => e.hash
  | none => genesisHash

/-- The `details` column stored by `add_patient`'s audit INSERT
(app.py, lines 198-202). -/
def addPatientStoredDetails (p : PatientData) : Str :=
  strOf "Added new patient: Name=" ++ p.name ++ strOf ", DOB=" ++ p.dob ++
  strOf ", Gender=" ++ p.gender ++ strOf ", Address=" ++ p.address ++
  strOf ", Phone=" ++ p.phone ++ strOf ", Diagnosis=" ++ p.diagnosis ++
  strOf ", Treatment=" ++ p.treatment

/-- The audit entry persisted by `add_patient` (app.py, lines 187-204):
the stored `hash` is computed over the short f-string `f'Added {name}'`,
while the stored `details` column is the long descriptive string. -/
def addPatientAudit (role : Str) (p : PatientData) (logs : List AuditEntry)
    (ts : Str) : AuditEntry :=
  let prev := tipHash logs
  { role := role
    action := strOf "Add Patient"
    details := addPatientStoredDetails p
    timestamp := ts
    prev_hash := prev
    hash := create_log_hash prev role (strOf "Add Patient") (strOf "Added " ++ p.name) ts }

/-- A row of the `patients` table: plaintext side columns plus the
`encrypted_data` blob (`NULL` modelled as `none`). -/
structure PatientRow where
  id : Nat
  name : Str
  dob : Str
  gender : Str
  address : Str
  phone : Str
  diagnosis : Str
  treatment : Str
  encrypted_data : Option Str
deriving DecidableEq, Repr

/-- One Python error kind relevant here: subscripting `None` raises
`TypeError`. -/
inductive PyError where
  | typeError
deriving DecidableEq, Repr

/-- The details string whose hash `delete_patient` stores (app.py, lines
381-382): `f'Deleted {patient["name"] if patient else "Unknown"}'`. -/
def deleteHashedDetails (patient : Option PatientRow) : Str :=
  strOf "Deleted " ++ (match patient with
    | some p => p.name
    | none => strOf "Unknown")

/-- `delete_patient` (app.py, lines 358-397), for `role = 'Doctor'`:
look up the patient's name, compute the chain hash (using `"Unknown"`
when the row is absent), then INSERT the audit entry whose `details`
f-string subscripts `patient["name"]` — raising `TypeError` when
`patient` is `None` — and finally DELETE the row.  The returned pair is
the committed (patients, audit_logs) state; an exception means nothing
is committed. -/
def delete_patient (patients : List PatientRow) (logs : List AuditEntry)
    (role : Str) (id : Nat) (ts : Str) :
    Except PyError (List PatientRow × List AuditEntry) :=
  let patient := patients.find? (fun r => r.id == id)
  let prev := tipHash logs
  let newHash := create_log_hash prev role (strOf "Delete Patient")
    (deleteHashedDetails patient) ts
  match patient with
  | none => .error .typeError
  | some p =>
    .ok (patients.filter (fun r => r.id ≠ id),
      logs ++ [{ role := role
                 action := strOf "Delete Patient"
                 details := strOf "Deleted patient: " ++ p.name
                 timestamp := ts
                 prev_hash := prev
                 hash := newHash }])

/-- The audit entry committed by `delete_patient` when the row exists. -/
def deletePatientAudit (role : Str) (p : PatientRow) (logs : List AuditEntry)
    (ts : Str) : AuditEntry :=
  let prev := tipHash logs
  { role := role
    action := strOf "Delete Patient"
    details := strOf "Deleted patient: " ++ p.name
    timestamp := ts
    prev_hash := prev
    hash := create_log_hash prev role (strOf "Delete Patient")
      (strOf "Deleted " ++ p.name) ts }

/-- The environment lookup in `app.py` lines 48-50:
`app.secret_key = os.getenv('MEDICAL_MASTER_KEY')`, then
`if not app.secret_key: raise RuntimeError(...)`.  `none` models an unset
variable; Python's falsiness also treats the empty string as unset. -/
def appStartupCheck (env : Option Str) : Except Str Unit :=
  let secretKey := env
  match secretKey with
  | none => .error (strOf "MEDICAL_MASTER_KEY is not set.")
  | some k => if k.isEmpty then .error (strOf "MEDICAL_MASTER_KEY is not set.") else .ok ()

/-- The master-key selection inside `MedicalCrypto._derive_key`
(crypto_utils.py, line 75):
`os.getenv('MEDICAL_MASTER_KEY', 'fallback-key-for-development')`. -/
def masterKeySource (env : Option Str) : Str :=
  env.getD (strOf "fallback-key-for-development")

/-- The key material used when `migrate_encryption.py` (line 58) constructs
`MedicalCrypto()` — that module performs no startup check on the
environment, so `_derive_key` runs unconditionally. -/
def migrateMasterKey (env : Option Str) : Str := masterKeySource env

/-- Modelled from the spec: the repository contains no chain-verification
code anywhere under src/ — §4.3 requires `verify_chain` as a standalone
operation.  An entry passes the per-entry check when its stored `hash`
equals the digest recomputed from its own fields (§4.3 step "recomputes
the digest from its fields and compares ... to the entry's stored hash"). -/
def entryHashOk (e : AuditEntry) : Bool :=
  e.hash == create_log_hash e.prev_hash e.role e.action e.details e.timestamp

/-- Modelled from the spec: the walk of §4.3's `verify_chain`, carrying the
current position; returns the position of the first entry whose recomputed
digest mismatches its stored `hash` or whose successor's `prev_hash`
mismatches, or `none` when the whole sequence checks out. -/
def verifyChainFrom : Nat → List AuditEntry → Option Nat
  | _, [] => none
  | i, [e] => if entryHashOk e then none else some i
  | i, e :: e' :: rest =>
    if entryHashOk e && (e'.prev_hash == e.hash) then verifyChainFrom (i + 1) (e' :: rest)
    else some i

/-- Modelled from the spec: `verify_chain(entries) -> bool` (§4.3), absent
from src/; true exactly when the walk finds no offending position. -/
def verify_chain (entries : List AuditEntry) : Bool :=
  (verifyChainFrom 0 entries).isNone

/-- The §3 chain-integrity invariant, transcribed: every entry's `hash` is
recomputable from its own fields, and every successor's `prev_hash` equals
its predecessor's `hash`. -/
def ChainLinked : List AuditEntry → Prop
  | [] => True
  | [e] => e.hash = create_log_hash e.prev_hash e.role e.action e.details e.timestamp
  | e :: e' :: rest =>
    e.hash = create_log_hash e.prev_hash e.role e.action e.details e.timestamp ∧
    e'.prev_hash = e.hash ∧ ChainLinked (e' :: rest)

/-- Modelled from the spec: §4.3 `append` — read the tip hash (genesis when
empty), digest (`prev_hash ‖ role ‖ action ‖ details ‖ timestamp`), persist
the new immutable entry. -/
def appendAudit (logs : List AuditEntry) (item : Str × Str × Str × Str) :
    List AuditEntry :=
  let prev := tipHash logs
  logs ++ [{ role := item.1
             action := item.2.1
             details := item.2.2.1
             timestamp := item.2.2.2
             prev_hash := prev
             hash := create_log_hash prev item.1 item.2.1 item.2.2.1 item.2.2.2 }]

/-- A freshly appended sequence: fold §4.3's `append` over an item list
(role, action, details, timestamp), starting from the empty store. -/
def buildChain (items : List (Str × Str × Str × Str)) : List AuditEntry :=
  items.foldl appendAudit []

/-- Migration counters of `migrate_encrypted_data`
(migrate_encryption.py): the updated table plus
{success_count, reconstructed_count, fail_count}. -/
structure MigrationSummary where
  rows : List PatientRow
  success : Nat
  reconstructed : Nat
  failed : Nat
deriving Repr

/-- The record rebuilt "from database fields" in the reconstruction branch
(migrate_encryption.py, lines 93-101); `x or ''` / `str(x) if x else ''`
are the identity on the modelled string columns. -/
def sideRecord (r : PatientRow) : PatientData :=
  { name := pyOrEmpty r.name
    dob := pyOrEmpty r.dob
    gender := pyOrEmpty r.gender
    address := pyOrEmpty r.address
    phone := pyOrEmpty r.phone
    diagnosis := pyOrEmpty r.diagnosis
    treatment := pyOrEmpty r.treatment }

/-- `migrate_encrypted_data` (migrate_encryption.py, lines 56-144): walk the
rows whose `encrypted_data` is non-NULL (`WHERE encrypted_data IS NOT NULL`
— rows with `none` are untouched); try to decrypt; when every decrypted
field is empty (`not any(decrypted_data.values())`), reconstruct from the
side columns; either way re-encrypt under the current key with a fresh IV
and overwrite only `encrypted_data`.  `ivs` supplies the stream of
`os.urandom(12)` nonces and `k` indexes the next one. -/
def runMigration (L : CryptoApi) (key : List Nat) (ivs : Nat → List Nat) :
    List PatientRow → Nat → MigrationSummary
  | [], _ => ⟨[], 0, 0, 0⟩
  | row :: rest, k =>
    match row.encrypted_data with
    | none =>
      let s := runMigration L key ivs rest k
      ⟨row :: s.rows, s.success, s.reconstructed, s.failed⟩
    | some blob =>
      let dec := decrypt_patient_data L key blob
      if hasNonEmptyField dec then
        let blob2 := encrypt_patient_data L key (ivs k) dec
        let s := runMigration L key ivs rest (k + 1)
        ⟨{ row with encrypted_data := some blob2 } :: s.rows,
          s.success + 1, s.reconstructed, s.failed⟩
      else
        let rebuilt := sideRecord row
        let blob2 := encrypt_patient_data L key (ivs k) rebuilt
        let s := runMigration L key ivs rest (k + 1)
        ⟨{ row with encrypted_data := some blob2 } :: s.rows,
          s.success + 1, s.reconstructed + 1, s.failed⟩

/-- A concrete injective byte-list-to-text encoding used by the executable
`CryptoApi` instance: each byte `n` becomes a run of `n` letters `a`
terminated by `b`. -/
def runEncode : List Nat → Str
  | [] => []
  | n :: rest => List.replicate n 'a' ++ 'b' :: runEncode rest

/-- Decoder for `runEncode`; `none` on any malformed text. -/
def runDecodeAux : Str → Nat → Option (List Nat)
  | [], acc => if acc = 0 then some [] else none
  | c :: cs, acc =>
    if c = 'a' then runDecodeAux cs (acc + 1)
    else if c = 'b' then (runDecodeAux cs 0).map (acc :: ·)
    else none

/-- Decoder entry point for `runEncode`. -/
def runDecode (s : Str) : Option (List Nat) := runDecodeAux s 0

theorem runDecodeAux_replicate (n : Nat) (t : Str) (acc : Nat) :
    runDecodeAux (List.replicate n 'a' ++ t) acc = runDecodeAux t (acc + n) := by
  induction n generalizing acc with
  | zero => simp [List.replicate]
  | succ m ih =>
    simp only [List.replicate, List.cons_append, runDecodeAux, eq_self_iff_true, if_true,
      List.append_eq, ih]
    congr 1
    omega

theorem runDecode_runEncode (bs : List Nat) : runDecode (runEncode bs) = some bs := by
  induction bs with
  | nil => rfl
  | cons n rest ih =>
    have ih' : runDecodeAux (runEncode rest) 0 = some rest := ih
    simp only [runDecode, runEncode]
    rw [runDecodeAux_replicate]
    simp only [runDecodeAux]
    rw [if_neg (by decide : ¬ ('b' : Char) = 'a'), if_true, ih']
    simp

/-- Character-to-byte transport used by the executable instance. -/
def charEnc (s : Str) : List Nat := s.map Char.toNat

/-- Byte-to-character transport used by the executable instance. -/
def charDec (l : List Nat) : Str := l.map Char.ofNat

theorem charDec_charEnc (s : Str) : charDec (charEnc s) = s := by
  induction s with
  | nil => rfl
  | cons c cs ih => simp [charEnc, charDec] at ih ⊢; simpa [Char.ofNat_toNat] using ih

/-- A fully executable `CryptoApi` instance, used to evaluate the model at
concrete inputs: the cipher transports characters to byte values and the
text codec is the run-length encoding above. -/
def sampleApi : CryptoApi where
  aesgcm_encrypt := fun _ _ m => charEnc m
  aesgcm_decrypt := fun _ _ c => some (charDec c)
  b64encode := runEncode
  b64decode := runDecode
  aead_roundtrip := fun _ _ m => by simp [charDec_charEnc]
  b64_roundtrip := fun bs => by simp [runDecode_runEncode]

theorem splitOnChar_dataStr (p : PatientData) (h : delimFree p) :
    splitOnChar '|' (dataStr p) =
      [p.name, p.dob, p.address, p.phone, p.diagnosis, p.treatment, p.gender] := by
  obtain ⟨h1, h2, h3, h4, h5, h6, h7⟩ := h
  apply splitOnChar_joinChar
  · simp
  · intro q hq
    simp only [List.mem_cons, List.not_mem_nil, or_false] at hq
    rcases hq with rfl | rfl | rfl | rfl | rfl | rfl | rfl <;> assumption

theorem parseFields_dataStr (p : PatientData) (h : delimFree p) :
    parseFields (dataStr p) = p := by
  cases p with
  | mk name dob gender address phone diagnosis treatment =>
    have hs := splitOnChar_dataStr ⟨name, dob, gender, address, phone, diagnosis, treatment⟩ h
    simp only [parseFields, hs]
    simp [pyOrEmpty_eq]

/-- Decryption followed by encryption is the identity on delimiter-free
records, when the IV has the 12 bytes `os.urandom(12)` supplies. -/
theorem decrypt_encrypt_eq (L : CryptoApi) (key iv : List Nat) (p : PatientData)
    (hiv : iv.length = 12) (hp : delimFree p) :
    decrypt_patient_data L key (encrypt_patient_data L key iv p) = p := by
  have ht : (iv ++ L.aesgcm_encrypt key iv (dataStr p)).take 12 = iv := by
    rw [← hiv]; exact List.take_left iv _
  have hd : (iv ++ L.aesgcm_encrypt key iv (dataStr p)).drop 12 =
      L.aesgcm_encrypt key iv (dataStr p) := by
    rw [← hiv]; exact List.drop_left iv _
  simp only [encrypt_patient_data, decrypt_patient_data, L.b64_roundtrip, ht, hd,
    L.aead_roundtrip]
  exact parseFields_dataStr p hp

theorem getD_not_mem (sep : Char) (l : List Str) (hfree : ∀ q ∈ l, sep ∉ q)
    (i : Nat) : sep ∉ l.getD i [] := by
  by_cases hi : i < l.length
  · rw [List.getD_eq_getElem l [] hi]
    exact hfree _ (l.getElem_mem hi)
  · rw [List.getD_eq_default l [] (Nat.le_of_not_lt hi)]
    exact List.not_mem_nil sep

/-- Every record produced by the field parser is delimiter-free: split
segments never contain the separator and padding segments are empty. -/
theorem parseFields_delimFree (m : Str) : delimFree (parseFields m) := by
  have hfree : ∀ q ∈ (if (splitOnChar '|' m).length < 7 then
      splitOnChar '|' m ++ List.replicate (7 - (splitOnChar '|' m).length) []
      else splitOnChar '|' m), '|' ∉ q := by
    intro q hq
    split at hq
    · rcases List.mem_append.mp hq with h | h
      · exact splitOnChar_not_mem '|' m q h
      · rw [List.eq_of_mem_replicate h]; exact List.not_mem_nil '|'
    · exact splitOnChar_not_mem '|' m q hq
  refine ⟨?_, ?_, ?_, ?_, ?_, ?_, ?_⟩ <;>
    simp only [parseFields, pyOrEmpty_eq] <;> exact getD_not_mem '|' _ hfree _

theorem emptyPatient_delimFree : delimFree emptyPatient :=
  ⟨List.not_mem_nil _, List.not_mem_nil _, List.not_mem_nil _, List.not_mem_nil _,
   List.not_mem_nil _, List.not_mem_nil _, List.not_mem_nil _⟩

/-- Whatever `decrypt_patient_data` returns is delimiter-free. -/
theorem decrypt_delimFree (L : CryptoApi) (key : List Nat) (blob : Str) :
    delimFree (decrypt_patient_data L key blob) := by
  unfold decrypt_patient_data
  rcases hb : L.b64decode blob with _ | raw
  · exact emptyPatient_delimFree
  · show delimFree (match L.aesgcm_decrypt key (raw.take 12) (raw.drop 12) with
      | none => emptyPatient
      | some dec => parseFields dec)
    rcases ha : L.aesgcm_decrypt key (raw.take 12) (raw.drop 12) with _ | dec
    · exact emptyPatient_delimFree
    · exact parseFields_delimFree dec

theorem entryHashOk_iff (e : AuditEntry) :
    entryHashOk e = true ↔
      e.hash = create_log_hash e.prev_hash e.role e.action e.details e.timestamp := by
  simp [entryHashOk]

theorem tipEntry_foldl_eq (logs : List AuditEntry) :
    ∀ (acc : Option AuditEntry) (b : AuditEntry),
      logs.foldl
        (fun acc e =>
          match acc with
          | none => some e
          | some x => if strLt x.timestamp e.timestamp then some e else some x)
        acc = some b →
      b ∈ logs ∨ acc = some b := by
  induction logs with
  | nil => intro acc b h; exact Or.inr h
  | cons e rest ih =>
    intro acc b h
    rcases ih _ b h with hmem | hacc
    · exact Or.inl (List.mem_cons_of_mem _ hmem)
    · rcases acc with _ | x
      · have he : e = b := by simpa using hacc
        exact Or.inl (he ▸ List.mem_cons_self _ _)
      · by_cases hlt : strLt x.timestamp e.timestamp = true
        · have he : e = b := by simpa [hlt] using hacc
          exact Or.inl (he ▸ List.mem_cons_self _ _)
        · have hx : x = b := by simpa [hlt] using hacc
          exact Or.inr (by rw [hx])

theorem tipEntry_mem (logs : List AuditEntry) (b : AuditEntry)
    (h : tipEntry logs = some b) : b ∈ logs := by
  rcases tipEntry_foldl_eq logs none b h with hmem | habs
  · exact hmem
  · cases habs

theorem tipEntry_append_lt (logs : List AuditEntry) (e : AuditEntry)
    (h : ∀ x ∈ logs, strLt x.timestamp e.timestamp = true) :
    tipEntry (logs ++ [e]) = some e := by
  unfold tipEntry
  rw [List.foldl_append]
  rcases htip : tipEntry logs with _ | b
  · unfold tipEntry at htip
    rw [htip]
    rfl
  · unfold tipEntry at htip
    rw [htip]
    simp only [List.foldl_cons, List.foldl_nil]
    rw [if_pos (h b (tipEntry_mem logs b (by unfold tipEntry; exact htip)))]

theorem ChainLinked_append (es : List AuditEntry) (e : AuditEntry)
    (hes : ChainLinked es)
    (he : e.hash = create_log_hash e.prev_hash e.role e.action e.details e.timestamp)
    (hlink : ∀ l, es.getLast? = some l → e.prev_hash = l.hash) :
    ChainLinked (es ++ [e]) := by
  induction es with
  | nil => simpa [ChainLinked] using he
  | cons x xs ih =>
    cases xs with
    | nil =>
      exact ⟨hes, hlink x rfl, he⟩
    | cons y ys =>
      obtain ⟨hx, hxy, hrest⟩ := hes
      have hlink' : ∀ l, (y :: ys).getLast? = some l → e.prev_hash = l.hash := by
        intro l hl
        exact hlink l (by rw [List.getLast?_cons_cons]; exact hl)
      exact ⟨hx, hxy, ih hrest hlink'⟩

theorem verifyFrom_none_iff (es : List AuditEntry) :
    ∀ i, verifyChainFrom i es = none ↔ ChainLinked es := by
  induction es with
  | nil => intro i; simp [verifyChainFrom, ChainLinked]
  | cons e tail ih =>
    intro i
    cases tail with
    | nil =>
      simp only [verifyChainFrom, ChainLinked]
      rcases h : entryHashOk e with _ | _
      · simp only [Bool.false_eq_true, if_false]
        constructor
        · intro habs; cases habs
        · intro hok
          exact absurd h (by simp [entryHashOk_iff, hok])
      · simp only [if_true]
        simp [entryHashOk_iff] at h
        simp [h]
    | cons e' rest =>
      simp only [verifyChainFrom, ChainLinked]
      rcases hc : entryHashOk e && (e'.prev_hash == e.hash) with _ | _
      · simp only [Bool.false_eq_true, if_false]
        constructor
        · intro habs; cases habs
        · rintro ⟨h1, h2, _⟩
          rw [Bool.and_eq_false_iff] at hc
          rcases hc with hc | hc
          · exact absurd hc (by simp [entryHashOk_iff, h1])
          · exact absurd hc (by simp [h2])
      · simp only [if_true]
        rw [Bool.and_eq_true] at hc
        rw [ih (i + 1)]
        constructor
        · intro h
          exact ⟨(entryHashOk_iff e).mp hc.1, by simpa using hc.2, h⟩
        · rintro ⟨_, _, h⟩; exact h

theorem verify_chain_iff (es : List AuditEntry) :
    verify_chain es = true ↔ ChainLinked es := by
  rw [verify_chain, Option.isNone_iff_eq_none]
  exact verifyFrom_none_iff es 0

theorem buildChain_linked (items : List (Str × Str × Str × Str)) :
    ∀ logs, ChainLinked logs → tipEntry logs = logs.getLast? →
      (∀ x ∈ logs, ∀ it ∈ items, strLt x.timestamp it.2.2.2 = true) →
      items.Pairwise (fun a b => strLt a.2.2.2 b.2.2.2 = true) →
      ChainLinked (items.foldl appendAudit logs) := by
  induction items with
  | nil => intro logs h1 _ _ _; simpa using h1
  | cons it rest ih =>
    intro logs h1 h2 h3 h4
    simp only [List.foldl_cons]
    have hprev : ∀ l, logs.getLast? = some l →
        (tipHash logs : Str) = l.hash := by
      intro l hl
      rw [tipHash, h2, hl]
    have hlinked : ChainLinked (appendAudit logs it) := by
      apply ChainLinked_append logs _ h1 rfl
      intro l hl
      exact hprev l hl
    have htip : tipEntry (appendAudit logs it) = (appendAudit logs it).getLast? := by
      unfold appendAudit
      rw [tipEntry_append_lt, List.getLast?_concat]
      intro x hx
      exact h3 x hx it (List.mem_cons_self _ _)
    have hts : ∀ x ∈ appendAudit logs it, ∀ it' ∈ rest,
        strLt x.timestamp it'.2.2.2 = true := by
      intro x hx it' hit'
      unfold appendAudit at hx
      rcases List.mem_append.mp hx with hmem | hmem
      · exact h3 x hmem it' (List.mem_cons_of_mem _ hit')
      · rw [List.mem_singleton] at hmem
        subst hmem
        exact (List.pairwise_cons.mp h4).1 it' hit'
    exact ih (appendAudit logs it) hlinked htip hts (List.pairwise_cons.mp h4).2

/-- A row whose blob (if any) decrypts, under the code's own success test,
to a record with at least one non-empty field. -/
def GoodRow (L : CryptoApi) (key : List Nat) (r : PatientRow) : Prop :=
  ∀ blob, r.encrypted_data = some blob →
    hasNonEmptyField (decrypt_patient_data L key blob) = true

theorem runMigration_reconstructed_zero (L : CryptoApi) (key : List Nat)
    (ivs : Nat → List Nat) :
    ∀ (rows : List PatientRow) (k : Nat), (∀ r ∈ rows, GoodRow L key r) →
      (runMigration L key ivs rows k).reconstructed = 0 := by
  intro rows
  induction rows with
  | nil => intro k _; rfl
  | cons row rest ih =>
    intro k hgood
    have hrest : ∀ r ∈ rest, GoodRow L key r :=
      fun r hr => hgood r (List.mem_cons_of_mem _ hr)
    rcases hb : row.encrypted_data with _ | blob
    · simp only [runMigration, hb]
      exact ih k hrest
    · have hne : hasNonEmptyField (decrypt_patient_data L key blob) = true :=
        hgood row (List.mem_cons_self _ _) blob hb
    
      simp only [runMigration, hb, hne, if_true]
      exact ih (k + 1) hrest

theorem runMigration_rows_good (L : CryptoApi) (key : List Nat)
    (ivs : Nat → List Nat) (hiv : ∀ n, (ivs n).length = 12) :
    ∀ (rows : List PatientRow) (k : Nat),
      (∀ r ∈ rows, r.encrypted_data ≠ none →
        delimFree (sideRecord r) ∧ hasNonEmptyField (sideRecord r) = true) →
      ∀ r ∈ (runMigration L key ivs rows k).rows, GoodRow L key r := by
  intro rows
  induction rows with
  | nil => intro k _ r hr; cases hr
  | cons row rest ih =>
    intro k hside r hr
    have hrest : ∀ r ∈ rest, r.encrypted_data ≠ none →
        delimFree (sideRecord r) ∧ hasNonEmptyField (sideRecord r) = true :=
      fun r hr => hside r (List.mem_cons_of_mem _ hr)
    rcases hb : row.encrypted_data with _ | blob
    · simp only [runMigration, hb] at hr
      rcases List.mem_cons.mp hr with rfl | hr'
      · intro b hbb
        rw [hb] at hbb
        cases hbb
      · exact ih k hrest r hr'
    · rcases hd : hasNonEmptyField (decrypt_patient_data L key blob) with _ | _
      · simp only [runMigration, hb, hd, Bool.false_eq_true, if_false] at hr
        rcases List.mem_cons.mp hr with rfl | hr'
        · intro b hbb
          simp only at hbb
          cases hbb
          obtain ⟨hfree, hnon⟩ := hside row (List.mem_cons_self _ _) (by rw [hb]; simp)
          rw [decrypt_encrypt_eq L key (ivs k) (sideRecord row) (hiv k) hfree]
          exact hnon
        · exact ih (k + 1) hrest r hr'
      · simp only [runMigration, hb, hd, if_true] at hr
        rcases List.mem_cons.mp hr with rfl | hr'
        · intro b hbb
          simp only at hbb
          cases hbb
          rw [decrypt_encrypt_eq L key (ivs k) (decrypt_patient_data L key blob) (hiv k)
            (decrypt_delimFree L key blob)]
          exact hd
        · exact ih (k + 1) hrest r hr'

/-- The plaintext side columns (and the id) of a patient row. -/
def sideFieldsOf (r : PatientRow) :
    Nat × Str × Str × Str × Str × Str × Str × Str :=
  (r.id, r.name, r.dob, r.gender, r.address, r.phone, r.diagnosis, r.treatment)

/-- A concrete patient record used to evaluate the model. -/
def janeDoe : PatientData :=
  { name := strOf "Jane", dob := strOf "1990-01-01", gender := strOf "Female",
    address := strOf "12 Main St", phone := strOf "555-0100",
    diagnosis := strOf "Flu", treatment := strOf "Rest" }

/-- A concrete timestamp string (`str(datetime.now())` shape). -/
def ts1 : Str := strOf "2025-01-01 10:00:00"

/-- The audit entry `add_patient` persists for `janeDoe` on an empty log. -/
def c1AddEntry : AuditEntry := addPatientAudit (strOf "Doctor") janeDoe [] ts1

/-- A concrete `patients` row for `janeDoe`. -/
def janeRow : PatientRow :=
  { id := 1, name := janeDoe.name, dob := janeDoe.dob, gender := janeDoe.gender,
    address := janeDoe.address, phone := janeDoe.phone, diagnosis := janeDoe.diagnosis,
    treatment := janeDoe.treatment, encrypted_data := none }

/-- The audit entry `delete_patient` persists when deleting `janeRow`. -/
def c1DeleteEntry : AuditEntry := deletePatientAudit (strOf "Doctor") janeRow [] ts1

/-- A concrete 32-byte key and a concrete 12-byte IV. -/
def key0 : List Nat := List.replicate 32 7

/-- A concrete 12-byte IV (`os.urandom(12)` output). -/
def iv12 : List Nat := List.replicate 12 0

/-- A constant IV stream for evaluating the Reconciler. -/
def ivs0 : Nat → List Nat := fun _ => List.replicate 12 0

/-- C1: the claim says every persisted audit entry's stored `hash` equals the
SHA-256 hex digest of its own stored `prev_hash`, `role`, `action`,
`details`, `timestamp`.  Evaluating `add_patient` and `delete_patient` at
concrete inputs shows the opposite: the code hashes a short summary string
(`f'Added {name}'`, `f'Deleted {name}'`) but stores a different, longer
`details` column, so recomputing the digest from the persisted fields does
not reproduce the stored hash. -/
theorem c1_stored_hash_not_recomputable :
    c1AddEntry.hash ≠ create_log_hash c1AddEntry.prev_hash c1AddEntry.role
      c1AddEntry.action c1AddEntry.details c1AddEntry.timestamp ∧
    delete_patient [janeRow] [] (strOf "Doctor") 1 ts1 = .ok ([], [c1DeleteEntry]) ∧
    c1DeleteEntry.hash ≠ create_log_hash c1DeleteEntry.prev_hash c1DeleteEntry.role
      c1DeleteEntry.action c1DeleteEntry.details c1DeleteEntry.timestamp :=
  ⟨by decide, by rfl, by decide⟩

/-- A record whose name contains the field delimiter `'|'`. -/
def pipeRecord : PatientData :=
  { name := strOf "a|b", dob := [], gender := [], address := [], phone := [],
    diagnosis := [], treatment := [] }

/-- C2 counterexample: the round-trip claim quantifies over *any* seven
string field values, but a field containing the delimiter `'|'` breaks it —
encrypting `pipeRecord` and decrypting the result yields a different
record (its name truncated at the delimiter). -/
theorem c2_roundtrip_counterexample :
    decrypt_patient_data sampleApi key0
      (encrypt_patient_data sampleApi key0 iv12 pipeRecord) ≠ pipeRecord := by
  decide

/-- C2 (amended): for every record whose seven fields are free of the
delimiter `'|'`, and every key and 12-byte IV, decrypting the encryption
yields the record back, over any library instance satisfying the AES-GCM
and base64 round-trip contracts. -/
theorem c2_roundtrip_delimFree (L : CryptoApi) (key iv : List Nat) (p : PatientData)
    (hiv : iv.length = 12) (hp : delimFree p) :
    decrypt_patient_data L key (encrypt_patient_data L key iv p) = p :=
  decrypt_encrypt_eq L key iv p hiv hp

/-- Witness: `c2_roundtrip_delimFree` evaluated at `janeDoe`. -/
theorem c2_roundtrip_delimFree_witness :
    (iv12.length = 12 ∧ delimFree janeDoe) ∧
    decrypt_patient_data sampleApi key0
      (encrypt_patient_data sampleApi key0 iv12 janeDoe) = janeDoe :=
  ⟨⟨by decide, by decide⟩,
   c2_roundtrip_delimFree sampleApi key0 iv12 janeDoe (by decide) (by decide)⟩

/-- C3: the claim says a missing master secret is fatal everywhere and no
configuration derives the key from a hardcoded constant.  The app route
module does refuse to start (first conjunct), but `_derive_key` falls back
to the constant `'fallback-key-for-development'` when the variable is
unset, and `migrate_encryption.py` constructs `MedicalCrypto()` with no
check, so the fallback-derived key is reachable (second and third
conjuncts). -/
theorem c3_fallback_key_reachable :
    appStartupCheck none = .error (strOf "MEDICAL_MASTER_KEY is not set.") ∧
    masterKeySource none = strOf "fallback-key-for-development" ∧
    migrateMasterKey none = strOf "fallback-key-for-development" :=
  ⟨rfl, rfl, rfl⟩

/-- C4: modelled from the spec (no chain-verification code exists in the
repository): `verify_chain` returns true on any freshly appended,
untampered sequence built by §4.3's `append` under strictly increasing
timestamps, and in general returns true exactly when every entry's digest
recomputes from its own fields and every successor's `prev_hash` matches
its predecessor's `hash` (so it reports false at the first mismatching
position via `verifyChainFrom`). -/
theorem c4_verify_chain_correct (items : List (Str × Str × Str × Str))
    (hts : items.Pairwise (fun a b => strLt a.2.2.2 b.2.2.2 = true)) :
    verify_chain (buildChain items) = true ∧
    ∀ es, verify_chain es = true ↔ ChainLinked es := by
  constructor
  · rw [verify_chain_iff]
    apply buildChain_linked items []
    · trivial
    · rfl
    · intro x hx; cases hx
    · exact hts
  · exact verify_chain_iff

/-- Two freshly appended items with increasing timestamps (§8's end-to-end
scenario). -/
def demoItems : List (Str × Str × Str × Str) :=
  [(strOf "Doctor", strOf "Add Patient", strOf "Added Jane Doe",
    strOf "2025-01-01 10:00:00"),
   (strOf "Doctor", strOf "Edit Patient", strOf "Edited patient: Jane Doe",
    strOf "2025-01-01 10:05:00")]

/-- Witness: `c4_verify_chain_correct` at the two-entry demo chain. -/
theorem c4_verify_chain_correct_witness :
    verify_chain (buildChain demoItems) = true :=
  (c4_verify_chain_correct demoItems (by decide)).1

/-- A record with seven pairwise-distinct one-letter fields. -/
def c5Rec : PatientData :=
  { name := strOf "n", dob := strOf "d", gender := strOf "g", address := strOf "a",
    phone := strOf "p", diagnosis := strOf "x", treatment := strOf "t" }

/-- C5 counterexample: the serialization does not place gender third — the
source joins name, dob, address, phone, diagnosis, treatment, gender, which
differs from the spec's claimed order at a record with distinct fields. -/
theorem c5_gender_third_counterexample : dataStr c5Rec ≠ dataStrSpecOrder c5Rec := by
  decide

/-- C5 (amended): encrypt joins the fields with `'|'` in the order name,
dob, address, phone, diagnosis, treatment, gender (gender seventh), and
decrypt assigns the split segments back to the named fields in that same
order. -/
theorem c5_field_order (p : PatientData) (n d a ph di t g : Str)
    (hn : '|' ∉ n) (hd : '|' ∉ d) (ha : '|' ∉ a) (hph : '|' ∉ ph)
    (hdi : '|' ∉ di) (ht : '|' ∉ t) (hg : '|' ∉ g) :
    dataStr p = p.name ++ '|' :: (p.dob ++ '|' :: (p.address ++ '|' :: (p.phone ++ '|' ::
      (p.diagnosis ++ '|' :: (p.treatment ++ '|' :: p.gender))))) ∧
    parseFields (joinChar '|' [n, d, a, ph, di, t, g]) =
      { name := n, dob := d, gender := g, address := a, phone := ph,
        diagnosis := di, treatment := t } := by
  constructor
  · rfl
  · have hs : splitOnChar '|' (joinChar '|' [n, d, a, ph, di, t, g]) =
        [n, d, a, ph, di, t, g] := by
      apply splitOnChar_joinChar
      · simp
      · intro q hq
        simp only [List.mem_cons, List.not_mem_nil, or_false] at hq
        rcases hq with rfl | rfl | rfl | rfl | rfl | rfl | rfl <;> assumption
    simp only [parseFields, hs]
    simp [pyOrEmpty_eq]

/-- Witness: `c5_field_order` at `c5Rec`'s seven one-letter fields. -/
theorem c5_field_order_witness :
    ('|' ∉ strOf "n") ∧
    parseFields (joinChar '|' [strOf "n", strOf "d", strOf "a", strOf "p",
      strOf "x", strOf "t", strOf "g"]) =
      { name := strOf "n", dob := strOf "d", gender := strOf "g", address := strOf "a",
        phone := strOf "p", diagnosis := strOf "x", treatment := strOf "t" } :=
  ⟨by decide,
   (c5_field_order c5Rec (strOf "n") (strOf "d") (strOf "a") (strOf "p") (strOf "x")
     (strOf "t") (strOf "g") (by decide) (by decide) (by decide) (by decide)
     (by decide) (by decide) (by decide)).2⟩

/-- C6: on any blob for which base64 decoding fails, or for which
authenticated decryption of the split IV/ciphertext fails (tag mismatch,
truncation, bad encoding), `decrypt_patient_data` returns exactly the
single all-empty failure dictionary — the model is total, so no exception
reaches the caller, and no partial plaintext is ever returned. -/
theorem c6_decrypt_failure_typed (L : CryptoApi) (key : List Nat) (blob : Str)
    (h : L.b64decode blob = none ∨
      ∃ raw, L.b64decode blob = some raw ∧
        L.aesgcm_decrypt key (raw.take 12) (raw.drop 12) = none) :
    decrypt_patient_data L key blob = emptyPatient := by
  unfold decrypt_patient_data
  rcases h with h | ⟨raw, h1, h2⟩
  · rw [h]
  · rw [h1]
    show (match L.aesgcm_decrypt key (raw.take 12) (raw.drop 12) with
      | none => emptyPatient
      | some dec => parseFields dec) = emptyPatient
    rw [h2]

/-- Witness: `c6_decrypt_failure_typed` at a malformed base64 blob. -/
theorem c6_decrypt_failure_typed_witness :
    sampleApi.b64decode (strOf "c") = none ∧
    decrypt_patient_data sampleApi key0 (strOf "c") = emptyPatient :=
  ⟨rfl, c6_decrypt_failure_typed sampleApi key0 (strOf "c") (Or.inl rfl)⟩

/-- A row with an undecryptable blob and all-empty side fields. -/
def emptySideRow : PatientRow :=
  { id := 1, name := [], dob := [], gender := [], address := [], phone := [],
    diagnosis := [], treatment := [], encrypted_data := some (strOf "c") }

/-- C7 counterexample: a record whose side fields are all empty defeats the
idempotence claim — the first run reconstructs an all-empty record, whose
re-encrypted blob decrypts on the second pass to the all-empty dictionary,
which the code's own success test (`any(values)`) treats as a failure, so
the second run reconstructs it again (count 1, not 0). -/
theorem c7_idempotence_counterexample :
    (runMigration sampleApi key0 ivs0
      (runMigration sampleApi key0 ivs0 [emptySideRow] 0).rows 0).reconstructed ≠ 0 := by
  decide

/-- C7 (amended): running the Reconciler twice in succession reconstructs
nothing on the second pass, provided every row holding a blob has
delimiter-free side fields at least one of which is non-empty (first-run
IVs being the 12 bytes `os.urandom` supplies). -/
theorem c7_second_run_reconstructs_nothing (L : CryptoApi) (key : List Nat)
    (ivsA ivsB : Nat → List Nat) (rows : List PatientRow) (k1 k2 : Nat)
    (hiv : ∀ n, (ivsA n).length = 12)
    (hside : ∀ r ∈ rows, r.encrypted_data ≠ none →
      delimFree (sideRecord r) ∧ hasNonEmptyField (sideRecord r) = true) :
    (runMigration L key ivsB (runMigration L key ivsA rows k1).rows k2).reconstructed = 0 :=
  runMigration_reconstructed_zero L key ivsB _ k2
    (runMigration_rows_good L key ivsA hiv rows k1 hside)

/-- `janeRow` with an undecryptable blob, for exercising the Reconciler. -/
def janeBadBlobRow : PatientRow :=
  { janeRow with encrypted_data := some (strOf "c") }

/-- Witness: `c7_second_run_reconstructs_nothing` on a one-row store whose
blob fails to decrypt on the first pass. -/
theorem c7_second_run_reconstructs_nothing_witness :
    (∀ n, (ivs0 n).length = 12) ∧
    (runMigration sampleApi key0 ivs0
      (runMigration sampleApi key0 ivs0 [janeBadBlobRow] 0).rows 0).reconstructed = 0 :=
  ⟨fun _ => List.length_replicate 12 0,
   c7_second_run_reconstructs_nothing sampleApi key0 ivs0 ivs0 [janeBadBlobRow] 0 0
     (fun _ => List.length_replicate 12 0) (by decide)⟩

/-- C8: the Reconciler never touches the plaintext side columns (or the
id): in both the re-encryption and the reconstruction branch only
`encrypted_data` is replaced, so mapping the side-field projection over the
processed table gives back exactly the original table's projection. -/
theorem c8_side_fields_unchanged (L : CryptoApi) (key : List Nat)
    (ivs : Nat → List Nat) (rows : List PatientRow) (k : Nat) :
    (runMigration L key ivs rows k).rows.map sideFieldsOf = rows.map sideFieldsOf := by
  induction rows generalizing k with
  | nil => rfl
  | cons row rest ih =>
    rcases hb : row.encrypted_data with _ | blob
    · simp only [runMigration, hb, List.map_cons, ih]
    · rcases hd : hasNonEmptyField (decrypt_patient_data L key blob) with _ | _
      · simp only [runMigration, hb, hd, Bool.false_eq_true, if_false, List.map_cons, ih]
        rfl
      · simp only [runMigration, hb, hd, if_true, List.map_cons, ih]
        rfl

theorem getD_take_lt {α : Type} (d : α) :
    ∀ (l : List α) (n i : Nat), i < n → (l.take n).getD i d = l.getD i d := by
  intro l
  induction l with
  | nil => intro n i _; simp
  | cons x xs ih =>
    intro n i h
    cases n with
    | zero => omega
    | succ m =>
      cases i with
      | zero => simp
      | succ j =>
        simp only [List.take_succ_cons, List.getD_cons_succ]
        exact ih m j (by omega)

/-- The record `decrypt_patient_data` builds from the first seven split
segments, in the source's assignment order. -/
def recordFromSegs (segs : List Str) : PatientData :=
  { name := pyOrEmpty (segs.getD 0 []), dob := pyOrEmpty (segs.getD 1 []),
    gender := pyOrEmpty (segs.getD 6 []), address := pyOrEmpty (segs.getD 2 []),
    phone := pyOrEmpty (segs.getD 3 []), diagnosis := pyOrEmpty (segs.getD 4 []),
    treatment := pyOrEmpty (segs.getD 5 []) }

/-- C9: when the decrypted plaintext splits into more than 7 segments (a
field value contained the delimiter), the returned record is built from
only the first 7 segments; all remaining segments are discarded, and the
return value is an ordinary record — the function has no error channel to
signal the loss. -/
theorem c9_extra_segments_discarded (L : CryptoApi) (key : List Nat) (blob : Str)
    (raw : List Nat) (m : Str)
    (h1 : L.b64decode blob = some raw)
    (h2 : L.aesgcm_decrypt key (raw.take 12) (raw.drop 12) = some m)
    (h3 : 7 < (splitOnChar '|' m).length) :
    decrypt_patient_data L key blob = recordFromSegs ((splitOnChar '|' m).take 7) := by
  unfold decrypt_patient_data
  rw [h1]
  show (match L.aesgcm_decrypt key (raw.take 12) (raw.drop 12) with
    | none => emptyPatient
    | some dec => parseFields dec) = recordFromSegs ((splitOnChar '|' m).take 7)
  rw [h2]
  show parseFields m = recordFromSegs ((splitOnChar '|' m).take 7)
  have hnotlt : ¬ (splitOnChar '|' m).length < 7 := by omega
  have e0 := getD_take_lt ([] : Str) (splitOnChar '|' m) 7 0 (by omega)
  have e1 := getD_take_lt ([] : Str) (splitOnChar '|' m) 7 1 (by omega)
  have e2 := getD_take_lt ([] : Str) (splitOnChar '|' m) 7 2 (by omega)
  have e3 := getD_take_lt ([] : Str) (splitOnChar '|' m) 7 3 (by omega)
  have e4 := getD_take_lt ([] : Str) (splitOnChar '|' m) 7 4 (by omega)
  have e5 := getD_take_lt ([] : Str) (splitOnChar '|' m) 7 5 (by omega)
  have e6 := getD_take_lt ([] : Str) (splitOnChar '|' m) 7 6 (by omega)
  simp only [parseFields, recordFromSegs, if_neg hnotlt, e0, e1, e2, e3, e4, e5, e6]

/-- A plaintext with nine delimiter-separated segments. -/
def m9 : Str := strOf "a|b|c|d|e|f|g|h|i"

/-- Its well-formed blob under the executable instance. -/
def blob9 : Str := sampleApi.b64encode (iv12 ++ charEnc m9)

/-- Witness: `c9_extra_segments_discarded` at a nine-segment plaintext. -/
theorem c9_extra_segments_discarded_witness :
    sampleApi.b64decode blob9 = some (iv12 ++ charEnc m9) ∧
    decrypt_patient_data sampleApi key0 blob9 =
      recordFromSegs ((splitOnChar '|' m9).take 7) :=
  ⟨by decide,
   c9_extra_segments_discarded sampleApi key0 blob9 (iv12 ++ charEnc m9) m9
     (by decide) (by decide) (by decide)⟩

/-- C10: invoking `delete_patient` with an id matching no patient computes
the chain hash over the placeholder details `"Deleted Unknown"`, but the
audit INSERT's own details f-string subscripts the absent row (`None`),
raising an uncaught `TypeError` — so the route commits neither an audit
entry nor a deletion. -/
theorem c10_delete_missing_patient (patients : List PatientRow)
    (logs : List AuditEntry) (id : Nat) (ts : Str)
    (h : patients.find? (fun r => r.id == id) = none) :
    delete_patient patients logs (strOf "Doctor") id ts = .error .typeError ∧
    deleteHashedDetails (patients.find? (fun r => r.id == id)) =
      strOf "Deleted Unknown" := by
  constructor
  · simp only [delete_patient, h]
  · rw [h]
    rfl

/-- Witness: `c10_delete_missing_patient` on an empty patients table. -/
theorem c10_delete_missing_patient_witness :
    (([] : List PatientRow).find? (fun r => r.id == 1) = none) ∧
    delete_patient [] [] (strOf "Doctor") 1 ts1 = .error .typeError :=
  ⟨rfl, (c10_delete_missing_patient [] [] 1 ts1 rfl).1⟩
